import Mathlib

/-!
Verification development for the rofl-attestations repository.

Shallow embedding of the verification-orchestration subsystem:
status aggregation (api/templates.go, renderAppCard), the SIWE auth
client token cache (worker/auth.go), the verification worker loop,
submission, polling and diagnostic formatting (worker package).

Machine time is modelled as abstract integer/natural instants; HTTP
exchanges are modelled as explicit response values fed to the embedded
handler logic.
-/

namespace Rofl

/-! ## Status aggregation (api/templates.go, renderAppCard lines 645-699)

`DeploymentStatus` keeps the two fields the aggregation rule reads:
the deployment name and its status string. -/

structure DeploymentStatus where
  name : String
  status : String
deriving DecidableEq, Repr

/-- The loop in renderAppCard (lines 649-679): each deployment named
"mainnet" is stored into the `mainnetDeployment` pointer (later one wins),
every other deployment is appended to `otherDeployments` in input order. -/
def splitDeploymentsAux (acc : Option DeploymentStatus × List DeploymentStatus) :
    List DeploymentStatus → Option DeploymentStatus × List DeploymentStatus
  | [] => acc
  | d :: rest =>
    if d.name = "mainnet" then splitDeploymentsAux (some d, acc.2) rest
    else splitDeploymentsAux (acc.1, acc.2 ++ [d]) rest

def splitDeployments (deps : List DeploymentStatus) :
    Option DeploymentStatus × List DeploymentStatus :=
  splitDeploymentsAux (none, []) deps

def statusVerified : String := "verified"

/-- Aggregation rule of renderAppCard lines 684-699: default "pending";
mainnet status wins if a mainnet deployment exists; else "verified" if any
other deployment is verified; else the status of the first other
deployment. -/
def aggregatedStatus (deps : List DeploymentStatus) : String :=
  match splitDeployments deps with
  | (some m, _) => m.status
  | (none, []) => "pending"
  | (none, d :: rest) =>
    if (d :: rest).any (fun x => x.status = statusVerified) then statusVerified
    else d.status

/-! Characterisation lemmas for the split loop. -/

lemma splitDeploymentsAux_fst_of_no_mainnet (l : List DeploymentStatus)
    (acc : Option DeploymentStatus × List DeploymentStatus)
    (h : ∀ d ∈ l, d.name ≠ "mainnet") :
    splitDeploymentsAux acc l = (acc.1, acc.2 ++ l) := by
  induction l generalizing acc with
  | nil => simp [splitDeploymentsAux]
  | cons x rest ih =>
    have hx : x.name ≠ "mainnet" := h x (by simp)
    simp only [splitDeploymentsAux, if_neg hx]
    rw [ih _ (fun d hd => h d (by simp [hd]))]
    simp

lemma splitDeploymentsAux_fst_of_unique_mainnet (l : List DeploymentStatus)
    (acc : Option DeploymentStatus × List DeploymentStatus)
    (d : DeploymentStatus)
    (h : l.filter (fun x => x.name = "mainnet") = [d]) :
    (splitDeploymentsAux acc l).1 = some d := by
  induction l generalizing acc with
  | nil => simp at h
  | cons x rest ih =>
    by_cases hx : x.name = "mainnet"
    · simp only [List.filter_cons, hx, decide_True, if_true] at h
      simp only [List.cons.injEq] at h
      obtain ⟨hxd, hrest⟩ := h
      subst hxd
      simp only [splitDeploymentsAux, if_pos hx]
      have hnone : ∀ y ∈ rest, y.name ≠ "mainnet" := by
        intro y hy hyn
        have : y ∈ rest.filter (fun x => x.name = "mainnet") := by
          simp [List.mem_filter, hy, hyn]
        rw [hrest] at this
        simp at this
      rw [splitDeploymentsAux_fst_of_no_mainnet rest _ hnone]
    · simp only [List.filter_cons, hx, decide_False, if_false] at h
      simp only [splitDeploymentsAux, if_neg hx]
      exact ih _ h

/-- From pairwise-distinct names and membership of a mainnet element,
the filter has exactly that element. -/
lemma filter_mainnet_eq_singleton (l : List DeploymentStatus)
    (hnodup : (l.map DeploymentStatus.name).Nodup)
    (d : DeploymentStatus) (hd : d ∈ l) (hname : d.name = "mainnet") :
    l.filter (fun x => x.name = "mainnet") = [d] := by
  induction l with
  | nil => simp at hd
  | cons x rest ih =>
    simp only [List.map_cons, List.nodup_cons] at hnodup
    obtain ⟨hxnotin, hrestnodup⟩ := hnodup
    rcases List.mem_cons.mp hd with hxd | hdrest
    · subst hxd
      simp only [List.filter_cons, hname, decide_True]
      have : rest.filter (fun x => x.name = "mainnet") = [] := by
        apply List.filter_eq_nil_iff.mpr
        intro y hy
        simp only [decide_eq_true_eq]
        intro hyn
        exact hxnotin (by rw [hname, ← hyn]; exact List.mem_map_of_mem _ hy)
      simp [this]
    · have hxn : x.name ≠ "mainnet" := by
        intro hxn
        exact hxnotin (by rw [hxn, ← hname]; exact List.mem_map_of_mem _ hdrest)
      simp only [List.filter_cons, hxn, decide_False]
      exact ih hrestnodup hdrest

/-- Bytewise comparison of character lists; models the ASCII/byte ordering
used by the store's ORDER BY deployment_name ASC. -/
def charListLe : List Char → List Char → Bool
  | [], _ => true
  | _ :: _, [] => false
  | a :: as, b :: bs => if a < b then true else if b < a then false else charListLe as bs

def nameLe (a b : String) : Bool := charListLe a.toList b.toList

lemma charListLe_refl (l : List Char) : charListLe l l = true := by
  induction l with
  | nil => rfl
  | cons c cs ih => simp [charListLe, lt_irrefl, ih]

lemma nameLe_refl (s : String) : nameLe s s = true := charListLe_refl _

/-- C1: For every application whose deployment set contains a deployment
named "mainnet", the aggregated status computed by renderAppCard equals the
mainnet deployment's status verbatim, regardless of the statuses of all
other deployments. Deployment names are pairwise distinct because
deployments are keyed by (app_id, deployment_name) in the store. -/
theorem mainnet_status_authoritative (deps : List DeploymentStatus)
    (hnodup : (deps.map DeploymentStatus.name).Nodup)
    (d : DeploymentStatus) (hd : d ∈ deps) (hname : d.name = "mainnet") :
    aggregatedStatus deps = d.status := by
  have hfil := filter_mainnet_eq_singleton deps hnodup d hd hname
  have hfst := splitDeploymentsAux_fst_of_unique_mainnet deps (none, []) d hfil
  unfold aggregatedStatus splitDeployments
  rcases hres : splitDeploymentsAux (none, []) deps with ⟨o, others⟩
  rw [hres] at hfst
  simp only at hfst
  subst hfst
  rfl

/-- Witness for C1: a failed mainnet overrides a verified testnet. -/
theorem mainnet_status_authoritative_witness :
    aggregatedStatus [⟨"mainnet", "failed"⟩, ⟨"testnet", "verified"⟩] = "failed" :=
  mainnet_status_authoritative _ (by decide) ⟨"mainnet", "failed"⟩ (by decide) rfl

/-- C2: For an application without a "mainnet" deployment: an empty
deployment list aggregates to "pending"; if any deployment is "verified"
the aggregate is "verified"; otherwise the aggregate is the status of the
first deployment in name-sorted order (the input is name-sorted because
GetDeploymentsByAppID orders by deployment_name ASC). -/
theorem no_mainnet_aggregation (deps : List DeploymentStatus)
    (hnom : ∀ d ∈ deps, d.name ≠ "mainnet")
    (hsorted : deps.Pairwise (fun a b => nameLe a.name b.name = true)) :
    (deps = [] → aggregatedStatus deps = "pending") ∧
    ((∃ d ∈ deps, d.status = "verified") → aggregatedStatus deps = "verified") ∧
    (∀ x rest, deps = x :: rest → (∀ d ∈ deps, d.status ≠ "verified") →
      aggregatedStatus deps = x.status ∧ ∀ d ∈ deps, nameLe x.name d.name = true) := by
  have hsplit : splitDeployments deps = (none, deps) := by
    unfold splitDeployments
    rw [splitDeploymentsAux_fst_of_no_mainnet deps _ hnom]
    simp
  refine ⟨?_, ?_, ?_⟩
  · rintro rfl
    rfl
  · rintro ⟨d, hd, hds⟩
    cases deps with
    | nil => simp at hd
    | cons x rest =>
      have hred : aggregatedStatus (x :: rest) =
          if ((x :: rest).any fun y => decide (y.status = statusVerified)) = true
          then statusVerified else x.status := by
        unfold aggregatedStatus
        rw [hsplit]
      have hany : ((x :: rest).any fun y => decide (y.status = statusVerified)) = true := by
        rw [List.any_eq_true]
        exact ⟨d, hd, by simp [statusVerified, hds]⟩
      rw [hred, hany]
      rfl
  · intro x rest hdeps hnotv
    subst hdeps
    constructor
    · have hred : aggregatedStatus (x :: rest) =
          if ((x :: rest).any fun y => decide (y.status = statusVerified)) = true
          then statusVerified else x.status := by
        unfold aggregatedStatus
        rw [hsplit]
      have hany : ((x :: rest).any fun y => decide (y.status = statusVerified)) = false := by
        simp only [List.any_eq_false, decide_eq_true_eq]
        intro d hd
        simpa [statusVerified] using hnotv d hd
      rw [hred, hany]
      rfl
    · intro d hd
      rcases List.mem_cons.mp hd with rfl | hdr
      · exact nameLe_refl _
      · exact (List.pairwise_cons.mp hsorted).1 d hdr

/-- Witness for C2: a verified non-mainnet deployment wins; an empty set
is pending; with none verified, the name-sorted first deployment's status
is the aggregate. -/
theorem no_mainnet_aggregation_witness :
    aggregatedStatus [⟨"alpha", "failed"⟩, ⟨"beta", "verified"⟩] = "verified" ∧
    aggregatedStatus [] = "pending" ∧
    aggregatedStatus [⟨"alpha", "failed"⟩, ⟨"beta", "pending"⟩] = "failed" := by
  have h1 := no_mainnet_aggregation [⟨"alpha", "failed"⟩, ⟨"beta", "verified"⟩]
    (by decide) (by decide)
  have h2 := no_mainnet_aggregation [] (by decide) (by decide)
  have h3 := no_mainnet_aggregation [⟨"alpha", "failed"⟩, ⟨"beta", "pending"⟩]
    (by decide) (by decide)
  refine ⟨h1.2.1 ⟨⟨"beta", "verified"⟩, by decide, rfl⟩, h2.1 rfl, ?_⟩
  exact (h3.2.2 ⟨"alpha", "failed"⟩ [⟨"beta", "pending"⟩] rfl (by decide)).1

/-! ## SessionManager token cache (worker/auth.go)

Time instants are integers measured in seconds. The cache state holds the
token string ("" when absent, matching the zero value of the Go struct
field) and the recorded expiry instant. -/

structure AuthState where
  token : String
  exp : Int
deriving DecidableEq, Repr

def fiveMinutes : Int := 5 * 60

/-- auth.go line 88: a.exp = time.Now().Add(11 * time.Hour). -/
def elevenHours : Int := 11 * 3600

/-- The backend-declared token lifetime: 12 hours (auth.go line 86 comment,
"12 hours is the default from backend"). -/
def backendTokenLifetime : Int := 12 * 3600

/-- auth.go line 64: a.token != "" && time.Now().Add(5*time.Minute).Before(a.exp). -/
def tokenFresh (s : AuthState) (now : Int) : Bool :=
  s.token != "" && decide (now + fiveMinutes < s.exp)

inductive GetTokenOutcome where
  | cached (token : String)
  | refreshed (token : String)
  | failed (errMsg : String)
deriving DecidableEq, Repr

/-- AuthClient.GetToken (auth.go lines 61-93), sequential semantics: if the
cached token is fresh it is returned as-is; otherwise the SIWE handshake is
performed (its result is the explicit `handshake` argument) and on success
the token is cached with expiry now + 11 hours; on failure the state is
unchanged and an error is returned. -/
def getToken (s : AuthState) (now : Int) (handshake : Except String String) :
    GetTokenOutcome × AuthState :=
  if tokenFresh s now then (.cached s.token, s)
  else
    match handshake with
    | .ok t => (.refreshed t, { token := t, exp := now + elevenHours })
    | .error e => (.failed ("failed to perform SIWE login: " ++ e), s)

/-- C5: a cached token with strictly more than five minutes remaining is
returned without a handshake; otherwise a handshake is performed (the
result is never the cached outcome); and a newly recorded expiry never
exceeds the backend-declared lifetime, so a cached token is never treated
as live past that lifetime. -/
theorem getToken_cache_policy (s : AuthState) (now : Int)
    (hs : Except String String) :
    (s.token ≠ "" → now + fiveMinutes < s.exp →
      getToken s now hs = (.cached s.token, s)) ∧
    (tokenFresh s now = false →
      ∀ tk, (getToken s now hs).1 ≠ GetTokenOutcome.cached tk) ∧
    (tokenFresh s now = false → ∀ t, hs = .ok t →
      (getToken s now hs).2.exp ≤ now + backendTokenLifetime ∧
      ∀ later, tokenFresh (getToken s now hs).2 later = true →
        later < now + backendTokenLifetime) := by
  refine ⟨?_, ?_, ?_⟩
  · intro h1 h2
    have hf : tokenFresh s now = true := by
      unfold tokenFresh
      rw [Bool.and_eq_true]
      exact ⟨bne_iff_ne.mpr h1, decide_eq_true h2⟩
    simp [getToken, hf]
  · intro hf tk
    cases hs with
    | ok t => simp [getToken, hf]
    | error e => simp [getToken, hf]
  · intro hf t ht
    subst ht
    simp only [getToken, hf, Bool.false_eq_true, if_false]
    constructor
    · simp only [elevenHours, backendTokenLifetime]
      omega
    · intro later hlater
      unfold tokenFresh at hlater
      rw [Bool.and_eq_true, decide_eq_true_eq] at hlater
      have := hlater.2
      simp only [elevenHours, backendTokenLifetime, fiveMinutes] at this ⊢
      omega

/-- Witness for C5: a token far from expiry is served from cache; a refresh
at time 0 records an expiry within the backend lifetime. -/
theorem getToken_cache_policy_witness :
    getToken ⟨"tok", 1000000⟩ 0 (.ok "newtok") =
      (.cached "tok", ⟨"tok", 1000000⟩) ∧
    (getToken ⟨"", 0⟩ 0 (.ok "newtok")).2.exp ≤ 0 + backendTokenLifetime := by
  have h1 := getToken_cache_policy ⟨"tok", 1000000⟩ 0 (.ok "newtok")
  have h2 := getToken_cache_policy ⟨"", 0⟩ 0 (.ok "newtok")
  exact ⟨h1.1 (by decide) (by decide), (h2.2.2 (by decide) "newtok" rfl).1⟩

/-! ## Login handshake response validation (worker/auth.go, authenticate) -/

/-- Simple per-character lowercasing of a string. -/
def strToLower (s : String) : String := String.mk (s.toList.map Char.toLower)

/-- Go strings.EqualFold, restricted to simple case folding. -/
def equalFold (a b : String) : Bool := strToLower a == strToLower b

/-- The decoded response of POST /auth/login together with its HTTP status. -/
structure LoginResponse where
  statusCode : Nat
  token : String
  address : String
deriving DecidableEq, Repr

/-- AuthClient.authenticate (auth.go lines 167-217), response handling:
non-200 status is rejected, then an empty token is rejected, then the
echoed address must case-insensitively match the session's own address. -/
def authenticate (selfAddress : String) (resp : LoginResponse) :
    Except String String :=
  if resp.statusCode ≠ 200 then
    .error ("authentication failed with status code: " ++ toString resp.statusCode)
  else if resp.token == "" then
    .error ("empty token in response")
  else if ! equalFold resp.address selfAddress then
    .error ("address mismatch: expected " ++ selfAddress ++ ", got " ++ resp.address)
  else
    .ok resp.token

/-- performSIWELogin (auth.go lines 96-133) wraps authenticate errors. -/
def performSIWELogin (selfAddress : String) (resp : LoginResponse) :
    Except String String :=
  match authenticate selfAddress resp with
  | .ok t => .ok t
  | .error e => .error ("failed to authenticate: " ++ e)

/-- C8: when the echoed address does not case-insensitively match the
session's own address the handshake fails and GetToken caches nothing (the
auth state is unchanged); a token is accepted only when the echoed address
matches case-insensitively. -/
theorem authenticate_address_check (selfAddress : String) (resp : LoginResponse)
    (s : AuthState) (now : Int) :
    (resp.statusCode = 200 → resp.token ≠ "" →
      equalFold resp.address selfAddress = false →
      authenticate selfAddress resp =
        .error ("address mismatch: expected " ++ selfAddress ++ ", got " ++ resp.address) ∧
      (tokenFresh s now = false →
        ∃ e, getToken s now (performSIWELogin selfAddress resp) = (.failed e, s))) ∧
    (∀ t, authenticate selfAddress resp = .ok t →
      equalFold resp.address selfAddress = true ∧ t = resp.token) := by
  constructor
  · intro h200 htok hfold
    have hauth : authenticate selfAddress resp =
        .error ("address mismatch: expected " ++ selfAddress ++ ", got " ++ resp.address) := by
      unfold authenticate
      rw [if_neg (by simp [h200]), if_neg (by simp [htok]), if_pos (by simp [hfold])]
    refine ⟨hauth, ?_⟩
    intro hf
    refine ⟨"failed to perform SIWE login: " ++ ("failed to authenticate: " ++
      ("address mismatch: expected " ++ selfAddress ++ ", got " ++ resp.address)), ?_⟩
    simp [getToken, hf, performSIWELogin, hauth]
  · intro t hok
    unfold authenticate at hok
    by_cases h1 : resp.statusCode ≠ 200
    · rw [if_pos h1] at hok
      exact absurd hok (by simp)
    · rw [if_neg h1] at hok
      by_cases h2 : resp.token == ""
      · rw [if_pos h2] at hok
        exact absurd hok (by simp)
      · rw [if_neg h2] at hok
        by_cases h3 : ! equalFold resp.address selfAddress
        · rw [if_pos h3] at hok
          exact absurd hok (by simp)
        · rw [if_neg h3] at hok
          simp only [Except.ok.injEq] at hok
          refine ⟨?_, hok.symm⟩
          simpa using h3

/-- Witness for C8: a mismatching echoed address is rejected; a matching
one (differing only in case) is accepted. -/
theorem authenticate_address_check_witness :
    authenticate "0xAB" ⟨200, "tok", "0xCD"⟩ =
      .error ("address mismatch: expected 0xAB, got 0xCD") ∧
    equalFold "0xab" "0xAB" = true := by
  have h1 := authenticate_address_check "0xAB" ⟨200, "tok", "0xCD"⟩ ⟨"", 0⟩ 0
  have h2 := authenticate_address_check "0xAB" ⟨200, "tok", "0xab"⟩ ⟨"", 0⟩ 0
  exact ⟨(h1.1 rfl (by decide) (by decide)).1, (h2.2 "tok" (by rfl)).1⟩

/-! ## Result polling (worker, pollResults)

The poll loop ticks at multiples of the poll interval (the k-th tick fires
at time k * interval, times measured from the start of the poll, so the
wall-clock deadline is at time `deadline`). The backend's answer at tick k
is `backend k`; the context-cancellation instant, if any, is `cancelAt`. -/

structure VerifyResult where
  verified : Bool
  commitSHA : String
  stdout : String
  stderr : String
  err : String
deriving DecidableEq, Repr

/-- The observable outcome of one checkResults call: HTTP 200 with a
decoded body, a non-200 status, or a transport/decode/auth error. -/
inductive CheckOutcome where
  | success (r : VerifyResult)
  | status (code : Nat)
  | failure (msg : String)
deriving DecidableEq, Repr

inductive PollOutcome where
  | result (r : VerifyResult)
  | timeoutErr
  | cancelErr
  | notFoundErr
  | unexpectedStatusErr (code : Nat)
  | checkErr (msg : String)
deriving DecidableEq, Repr

/-- The outcome of a poll run together with the time at which the loop
returned and the list of ticks at which the backend was actually queried.
The Go function returns only the outcome; time and queries are its
observable interaction with the environment. -/
structure PollTrace where
  outcome : PollOutcome
  finishTime : Nat
  queried : List Nat
deriving DecidableEq, Repr

/-- Whether the cancellation signal has fired by time t (the ctx.Done
branch of the select is taken when cancellation fires no later than the
next tick). -/
def cancelBefore (cancelAt : Option Nat) (t : Nat) : Bool :=
  match cancelAt with
  | none => false
  | some c => decide (c ≤ t)

/-- Handling of one checkResults answer at tick k (the switch at lines
474-486): 200 returns the parsed result, 202 continues with the rest of
the loop, 404 is "task not found or expired", anything else is an
unexpected status; a transport error is propagated with its cause. -/
def pollTerminal (interval k : Nat) (out : CheckOutcome) (cont : Unit → PollTrace) :
    PollTrace :=
  match out with
  | .failure msg => { outcome := .checkErr ("failed to check results: " ++ msg),
                      finishTime := k * interval, queried := [k] }
  | .success r => { outcome := .result r, finishTime := k * interval, queried := [k] }
  | .status c =>
    if c = 202 then
      let t := cont ()
      { outcome := t.outcome, finishTime := t.finishTime, queried := k :: t.queried }
    else if c = 404 then
      { outcome := .notFoundErr, finishTime := k * interval, queried := [k] }
    else
      { outcome := .unexpectedStatusErr c, finishTime := k * interval, queried := [k] }

/-- The loop of pollResults (worker, lines 460-488) from tick k onward:
on each iteration the select observes cancellation or the tick; at a tick
the deadline is checked first (time.Now().After(deadline)), then
checkResults is consulted via `pollTerminal`. -/
def pollLoop (backend : Nat → CheckOutcome) (interval deadline : Nat)
    (cancelAt : Option Nat) (hpos : 0 < interval) (k : Nat) : PollTrace :=
  if cancelBefore cancelAt (k * interval) then
    { outcome := .cancelErr, finishTime := cancelAt.getD 0, queried := [] }
  else if _hto : deadline < k * interval then
    { outcome := .timeoutErr, finishTime := k * interval, queried := [] }
  else
    pollTerminal interval k (backend k)
      (fun _ => pollLoop backend interval deadline cancelAt hpos (k + 1))
  termination_by deadline + 1 - k * interval
  decreasing_by
    simp only [Nat.succ_mul] at *
    omega

/-- pollResults: the loop starts at the first tick. -/
def pollResults (backend : Nat → CheckOutcome) (interval deadline : Nat)
    (cancelAt : Option Nat) (hpos : 0 < interval) : PollTrace :=
  pollLoop backend interval deadline cancelAt hpos 1

/-- Every backend query happens strictly before the cancellation instant:
the loop never polls after cancellation fires. -/
lemma pollLoop_queried_lt_cancel (backend : Nat → CheckOutcome)
    (interval deadline c : Nat) (hpos : 0 < interval) :
    ∀ k q, q ∈ (pollLoop backend interval deadline (some c) hpos k).queried →
      q * interval < c := by
  suffices H : ∀ n k, deadline + 1 - k * interval = n →
      ∀ q ∈ (pollLoop backend interval deadline (some c) hpos k).queried,
        q * interval < c by
    intro k
    exact H _ k rfl
  intro n
  induction n using Nat.strong_induction_on with
  | _ n ih =>
    intro k hn q hq
    rw [pollLoop] at hq
    by_cases hc : cancelBefore (some c) (k * interval) = true
    · rw [if_pos hc] at hq
      simp at hq
    · rw [if_neg hc] at hq
      have hck : k * interval < c := by
        simp only [cancelBefore, decide_eq_true_eq] at hc
        omega
      by_cases hto : deadline < k * interval
      · rw [dif_pos hto] at hq
        simp at hq
      · rw [dif_neg hto] at hq
        cases hb : backend k with
        | failure msg =>
          rw [hb] at hq
          simp only [pollTerminal, List.mem_singleton] at hq
          subst hq
          exact hck
        | success r =>
          rw [hb] at hq
          simp only [pollTerminal, List.mem_singleton] at hq
          subst hq
          exact hck
        | status code =>
          rw [hb] at hq
          simp only [pollTerminal] at hq
          by_cases h202 : code = 202
          · rw [if_pos h202] at hq
            simp only [List.mem_cons] at hq
            rcases hq with rfl | hq'
            · exact hck
            · refine ih (deadline + 1 - (k + 1) * interval) ?_ (k + 1) rfl q hq'
              simp only [Nat.succ_mul] at *
              omega
          · rw [if_neg h202] at hq
            by_cases h404 : code = 404
            · rw [if_pos h404] at hq
              simp only [List.mem_singleton] at hq
              subst hq
              exact hck
            · rw [if_neg h404] at hq
              simp only [List.mem_singleton] at hq
              subst hq
              exact hck

/-- With the backend answering 202 at every tick and no cancellation, the
loop times out at the first tick past the deadline. -/
lemma pollLoop_timeout_of_inprogress (backend : Nat → CheckOutcome)
    (interval deadline : Nat) (hpos : 0 < interval)
    (hacc : ∀ j, backend j = .status 202) :
    ∀ b j, j * interval ≤ deadline → deadline < (j + b) * interval →
      (pollLoop backend interval deadline none hpos (j + 1)).outcome = .timeoutErr ∧
      deadline < (pollLoop backend interval deadline none hpos (j + 1)).finishTime ∧
      (pollLoop backend interval deadline none hpos (j + 1)).finishTime ≤
        deadline + interval := by
  intro b
  induction b with
  | zero =>
    intro j hj hb
    simp only [Nat.add_zero] at hb
    omega
  | succ b ihb =>
    intro j hj hb
    rw [pollLoop]
    rw [if_neg (by simp [cancelBefore])]
    by_cases hto : deadline < (j + 1) * interval
    · rw [dif_pos hto]
      refine ⟨rfl, hto, ?_⟩
      simp only [Nat.succ_mul] at *
      omega
    · rw [dif_neg hto]
      rw [hacc (j + 1)]
      simp only [pollTerminal, if_pos rfl]
      have hrec := ihb (j + 1) (by omega) (by
        have : j + 1 + b = j + (b + 1) := by omega
        rw [this]
        exact hb)
      exact hrec

/-- With cancellation firing at instant c no later than the deadline and
the backend answering 202 at every tick, the loop exits with the
cancellation error. -/
lemma pollLoop_cancel_of_inprogress (backend : Nat → CheckOutcome)
    (interval deadline c : Nat) (hpos : 0 < interval)
    (hacc : ∀ j, backend j = .status 202) (hcd : c ≤ deadline) :
    ∀ b j, j * interval ≤ deadline → deadline < (j + b) * interval →
      (pollLoop backend interval deadline (some c) hpos (j + 1)).outcome = .cancelErr := by
  intro b
  induction b with
  | zero =>
    intro j hj hb
    simp only [Nat.add_zero] at hb
    omega
  | succ b ihb =>
    intro j hj hb
    rw [pollLoop]
    by_cases hc : cancelBefore (some c) ((j + 1) * interval) = true
    · rw [if_pos hc]
    · rw [if_neg hc]
      have hck : (j + 1) * interval < c := by
        simp only [cancelBefore, decide_eq_true_eq] at hc
        omega
      have hto : ¬ deadline < (j + 1) * interval := by omega
      rw [dif_neg hto]
      rw [hacc (j + 1)]
      simp only [pollTerminal, if_pos rfl]
      refine ihb (j + 1) (by omega) (by
        have : j + 1 + b = j + (b + 1) := by omega
        rw [this]
        exact hb)

/-- C3: with the backend answering "in progress" (202) on every tick and
no cancellation, Poll fails with the timeout error, strictly after the
deadline but within one tick interval of it; with cancellation firing no
later than the deadline, Poll instead returns the cancellation error,
which is distinct from the timeout error, and the backend is never
queried at or after the cancellation instant. -/
theorem poll_timeout_and_cancellation (backend : Nat → CheckOutcome)
    (interval deadline : Nat) (hpos : 0 < interval)
    (hacc : ∀ j, backend j = .status 202) :
    ((pollResults backend interval deadline none hpos).outcome = .timeoutErr ∧
     deadline < (pollResults backend interval deadline none hpos).finishTime ∧
     (pollResults backend interval deadline none hpos).finishTime ≤ deadline + interval) ∧
    (∀ c, c ≤ deadline →
      (pollResults backend interval deadline (some c) hpos).outcome = .cancelErr) ∧
    (PollOutcome.cancelErr ≠ PollOutcome.timeoutErr) ∧
    (∀ c q, q ∈ (pollResults backend interval deadline (some c) hpos).queried →
      q * interval < c) := by
  have hfuel : deadline < (0 + (deadline + 1)) * interval := by
    rw [Nat.zero_add]
    have h1 : (deadline + 1) * 1 ≤ (deadline + 1) * interval := Nat.mul_le_mul_left _ hpos
    omega
  refine ⟨?_, ?_, by simp, ?_⟩
  · exact pollLoop_timeout_of_inprogress backend interval deadline hpos hacc
      (deadline + 1) 0 (by omega) (by simpa using hfuel)
  · intro c hc
    exact pollLoop_cancel_of_inprogress backend interval deadline c hpos hacc hc
      (deadline + 1) 0 (by omega) (by simpa using hfuel)
  · intro c q hq
    exact pollLoop_queried_lt_cancel backend interval deadline c hpos 1 q hq

/-- Witness for C3: interval 1, deadline 3, always-202 backend: timeout at
tick 4; with cancellation at instant 2 the outcome is the cancellation
error instead. -/
theorem poll_timeout_and_cancellation_witness :
    (pollResults (fun _ => .status 202) 1 3 none Nat.one_pos).outcome = .timeoutErr ∧
    (pollResults (fun _ => .status 202) 1 3 (some 2) Nat.one_pos).outcome = .cancelErr := by
  have h := poll_timeout_and_cancellation (fun _ => .status 202) 1 3 Nat.one_pos
    (fun _ => rfl)
  exact ⟨h.1.1, h.2.1 2 (by decide)⟩

/-- Advancing through a run of 202 answers: if every tick from k up to
(but excluding) K answers 202 and tick K is still within the deadline,
the loop from tick k behaves as the loop from tick K, with ticks k..K-1
prepended to the query log. -/
lemma pollLoop_advance (backend : Nat → CheckOutcome) (interval deadline K : Nat)
    (hpos : 0 < interval) (hKd : K * interval ≤ deadline) :
    ∀ d k, k + d = K →
      (∀ j, k ≤ j → j < K → backend j = .status 202) →
      pollLoop backend interval deadline none hpos k =
        { outcome := (pollLoop backend interval deadline none hpos K).outcome,
          finishTime := (pollLoop backend interval deadline none hpos K).finishTime,
          queried := List.range' k d ++
            (pollLoop backend interval deadline none hpos K).queried } := by
  intro d
  induction d with
  | zero =>
    intro k hk _hacc
    have hkK : k = K := by omega
    subst hkK
    simp
  | succ d ihd =>
    intro k hk hacc
    have hkK : k < K := by omega
    have hkd : ¬ deadline < k * interval := by
      have hmul : k * interval ≤ K * interval :=
        Nat.mul_le_mul_right interval (by omega)
      omega
    rw [pollLoop]
    rw [if_neg (by simp [cancelBefore])]
    rw [dif_neg hkd]
    rw [hacc k (le_refl k) hkK]
    simp only [pollTerminal, if_pos rfl]
    rw [ihd (k + 1) (by omega) (fun j hj hjK => hacc j (by omega) hjK)]
    simp [List.range'_succ]

/-- C4: suppose ticks 1..K-1 all answer "in progress" and tick K is still
within the deadline. Then: a success (200) answer at tick K makes Poll
return the parsed result at that very tick, with exactly ticks 1..K
queried (no further ticks); a 404 at tick K is the terminal
"task not found or expired" failure; any other status is the terminal
unexpected-status failure; a transport error is terminal and propagates
its cause. -/
theorem poll_terminal_responses (backend : Nat → CheckOutcome)
    (interval deadline K : Nat) (hpos : 0 < interval) (hK : 1 ≤ K)
    (hKd : K * interval ≤ deadline)
    (hacc : ∀ j, 1 ≤ j → j < K → backend j = .status 202) :
    (∀ r, backend K = .success r →
      pollResults backend interval deadline none hpos =
        { outcome := .result r, finishTime := K * interval,
          queried := List.range' 1 K }) ∧
    (backend K = .status 404 →
      pollResults backend interval deadline none hpos =
        { outcome := .notFoundErr, finishTime := K * interval,
          queried := List.range' 1 K }) ∧
    (∀ code, backend K = .status code → code ≠ 202 → code ≠ 404 →
      pollResults backend interval deadline none hpos =
        { outcome := .unexpectedStatusErr code, finishTime := K * interval,
          queried := List.range' 1 K }) ∧
    (∀ msg, backend K = .failure msg →
      pollResults backend interval deadline none hpos =
        { outcome := .checkErr ("failed to check results: " ++ msg),
          finishTime := K * interval, queried := List.range' 1 K }) := by
  have hKto : ¬ deadline < K * interval := by omega
  have hadv := pollLoop_advance backend interval deadline K hpos hKd (K - 1) 1
    (by omega) (fun j hj hjK => hacc j hj hjK)
  have hrange : List.range' 1 (K - 1) ++ [K] = List.range' 1 K := by
    have hKsub : K = (K - 1) + 1 := by omega
    rw [hKsub, List.range'_concat]
    simp
    omega
  have hKstep : ∀ t : PollTrace,
      pollLoop backend interval deadline none hpos K = t →
      pollResults backend interval deadline none hpos =
        { outcome := t.outcome, finishTime := t.finishTime,
          queried := List.range' 1 (K - 1) ++ t.queried } := by
    intro t ht
    unfold pollResults
    rw [hadv, ht]
  refine ⟨?_, ?_, ?_, ?_⟩
  · intro r hb
    have ht : pollLoop backend interval deadline none hpos K =
        { outcome := .result r, finishTime := K * interval, queried := [K] } := by
      rw [pollLoop]
      rw [if_neg (by simp [cancelBefore])]
      rw [dif_neg hKto, hb]
      simp [pollTerminal]
    rw [hKstep _ ht]
    simp [hrange]
  · intro hb
    have ht : pollLoop backend interval deadline none hpos K =
        { outcome := .notFoundErr, finishTime := K * interval, queried := [K] } := by
      rw [pollLoop]
      rw [if_neg (by simp [cancelBefore])]
      rw [dif_neg hKto, hb]
      simp [pollTerminal]
    rw [hKstep _ ht]
    simp [hrange]
  · intro code hb h202 h404
    have ht : pollLoop backend interval deadline none hpos K =
        { outcome := .unexpectedStatusErr code, finishTime := K * interval,
          queried := [K] } := by
      rw [pollLoop]
      rw [if_neg (by simp [cancelBefore])]
      rw [dif_neg hKto, hb]
      simp [pollTerminal, h202, h404]
    rw [hKstep _ ht]
    simp [hrange]
  · intro msg hb
    have ht : pollLoop backend interval deadline none hpos K =
        { outcome := .checkErr ("failed to check results: " ++ msg),
          finishTime := K * interval, queried := [K] } := by
      rw [pollLoop]
      rw [if_neg (by simp [cancelBefore])]
      rw [dif_neg hKto, hb]
      simp [pollTerminal]
    rw [hKstep _ ht]
    simp [hrange]

/-- Witness for C4: with the backend succeeding at the very first tick,
Poll returns that result at tick 1 having queried only tick 1; a 404 at
the first tick is the not-found failure. -/
theorem poll_terminal_responses_witness :
    pollResults (fun _ => .success ⟨true, "abc123", "", "", ""⟩) 1 10 none Nat.one_pos =
      { outcome := .result ⟨true, "abc123", "", "", ""⟩, finishTime := 1,
        queried := [1] } ∧
    pollResults (fun _ => .status 404) 1 10 none Nat.one_pos =
      { outcome := .notFoundErr, finishTime := 1, queried := [1] } := by
  have h1 := poll_terminal_responses (fun _ => .success ⟨true, "abc123", "", "", ""⟩)
    1 10 1 Nat.one_pos (le_refl 1) (by decide)
    (fun j h1j hj1 => absurd (Nat.lt_of_le_of_lt h1j hj1) (Nat.lt_irrefl 1))
  have h2 := poll_terminal_responses (fun _ => .status 404)
    1 10 1 Nat.one_pos (le_refl 1) (by decide)
    (fun j h1j hj1 => absurd (Nat.lt_of_le_of_lt h1j hj1) (Nat.lt_irrefl 1))
  exact ⟨h1.1 ⟨true, "abc123", "", "", ""⟩ rfl, h2.2.1 rfl⟩

/-! ## Verification-failure diagnostics
(worker, formatVerificationError lines 320-348 and parseMismatchedIDs
lines 351-399)

Executable string helpers over List Char, mirroring the Go strings
package functions used by the source (Contains, Fields, Split lines,
HasPrefix, TrimRight, ToLower). -/

def startsWithList : List Char → List Char → Bool
  | [], _ => true
  | _ :: _, [] => false
  | a :: as, b :: bs => a == b && startsWithList as bs

def listContainsFrom (needle : List Char) : List Char → Bool
  | [] => startsWithList needle []
  | c :: rest => startsWithList needle (c :: rest) || listContainsFrom needle rest

/-- Go strings.Contains(s, sub). -/
def strContains (s sub : String) : Bool := listContainsFrom sub.toList s.toList

/-- Go strings.HasPrefix(s, pre). -/
def strHasPre (s pre : String) : Bool := startsWithList pre.toList s.toList

def isSpaceChar (c : Char) : Bool :=
  c == ' ' || c == '\t' || c == '\n' || c == '\r' ||
  c == Char.ofNat 11 || c == Char.ofNat 12

def fieldsAux (cur : List Char) : List Char → List (List Char)
  | [] => if cur.isEmpty then [] else [cur.reverse]
  | c :: rest =>
    if isSpaceChar c then
      if cur.isEmpty then fieldsAux [] rest
      else cur.reverse :: fieldsAux [] rest
    else fieldsAux (c :: cur) rest

/-- Go strings.Fields: split around runs of whitespace. -/
def strFields (s : String) : List String := (fieldsAux [] s.toList).map String.mk

def splitLinesAux (cur : List Char) : List Char → List (List Char)
  | [] => [cur.reverse]
  | c :: rest =>
    if c == '\n' then cur.reverse :: splitLinesAux [] rest
    else splitLinesAux (c :: cur) rest

/-- Go strings.Split(s, "\n"). -/
def strLines (s : String) : List String := (splitLinesAux [] s.toList).map String.mk

/-- Go strings.TrimRight(s, ",.;:"). -/
def trimRightPunct (s : String) : String :=
  String.mk ((s.toList.reverse.dropWhile
    (fun c => c == ',' || c == '.' || c == ';' || c == ':')).reverse)

/-- The word scan of parseMismatchedIDs: words of a line that start with
"rofl1" and are longer than 10 characters, with trailing punctuation
trimmed, in order. -/
def extractRoflIDs (line : String) : List String :=
  ((strFields line).filter
    (fun w => strHasPre w "rofl1" && decide (10 < w.length))).map trimRightPunct

/-- Per-line collection of parseMismatchedIDs (lines 357-386): the first
block fires on lines containing "rofl1"; the second block fires on lines
whose lowercase form mentions mismatch/expected/actual and that also
contain "rofl1", re-extracting the same words. -/
def lineIDs (line : String) : List String :=
  (if strContains line "rofl1" then extractRoflIDs line else []) ++
  (if (strContains (strToLower line) "mismatch" ||
       strContains (strToLower line) "expected" ||
       strContains (strToLower line) "actual") &&
      strContains line "rofl1"
   then extractRoflIDs line else [])

/-- All ids collected across lines, duplicates included (lines 356-386). -/
def rawMismatchIDs (output : String) : List String :=
  ((strLines output).map lineIDs).flatten

/-- The dedup pass of parseMismatchedIDs (lines 388-396): keep the first
occurrence of each id, in order. -/
def dedupFirstAux (seen : List String) : List String → List String
  | [] => []
  | x :: rest =>
    if seen.contains x then dedupFirstAux seen rest
    else x :: dedupFirstAux (x :: seen) rest

def parseMismatchedIDs (output : String) : List String :=
  dedupFirstAux [] (rawMismatchIDs output)

def mismatchHeader : String :=
  "Verification failed: enclave measurements do not match on-chain deployments.\n\n"

def idsSection (ids : List String) : String :=
  if ids.isEmpty then ""
  else "Mismatched Enclave IDs:\n" ++
    String.join (ids.map (fun i => "  - " ++ i ++ "\n")) ++ "\n"

def mismatchHint : String :=
  "This usually means the application was built with different code or build configuration than what\x27s in the repository."

/-- formatVerificationError (lines 320-348): a raw error text mentioning
"exit status 1" or "command" yields the mismatch message with the parsed
enclave ids; otherwise a non-empty raw error text is surfaced verbatim;
otherwise a generic mismatch message. -/
def formatVerificationError (r : VerifyResult) : String :=
  if strContains r.err "exit status 1" || strContains r.err "command" then
    mismatchHeader ++
      idsSection (parseMismatchedIDs (r.stderr ++ "\n" ++ r.stdout)) ++ mismatchHint
  else if r.err != "" then r.err
  else "Verification failed: enclave measurements do not match"

lemma dedupFirstAux_sublist (l : List String) :
    ∀ seen, List.Sublist (dedupFirstAux seen l) l := by
  induction l with
  | nil =>
    intro seen
    simp [dedupFirstAux]
  | cons x rest ih =>
    intro seen
    by_cases hx : seen.contains x
    · simp only [dedupFirstAux, if_pos hx]
      exact (ih seen).trans (List.sublist_cons_self x rest)
    · simp only [dedupFirstAux, if_neg hx]
      exact (ih (x :: seen)).cons₂ x

lemma dedupFirstAux_mem (l : List String) :
    ∀ seen x, x ∈ dedupFirstAux seen l ↔ x ∈ l ∧ x ∉ seen := by
  induction l with
  | nil =>
    intro seen x
    simp [dedupFirstAux]
  | cons y rest ih =>
    intro seen x
    by_cases hy : seen.contains y
    · have hymem : y ∈ seen := by
        simpa [List.contains] using hy
      simp only [dedupFirstAux, if_pos hy, ih, List.mem_cons]
      constructor
      · rintro ⟨hr, hs⟩
        exact ⟨Or.inr hr, hs⟩
      · rintro ⟨hxy | hr, hs⟩
        · exact absurd (hxy ▸ hymem) hs
        · exact ⟨hr, hs⟩
    · have hynot : y ∉ seen := by
        simpa [List.contains] using hy
      simp only [dedupFirstAux, if_neg hy, List.mem_cons, ih]
      by_cases hxy : x = y
      · subst hxy
        simp [hynot]
      · simp only [hxy, false_or]

lemma dedupFirstAux_nodup (l : List String) :
    ∀ seen, (dedupFirstAux seen l).Nodup := by
  induction l with
  | nil =>
    intro seen
    simp [dedupFirstAux]
  | cons x rest ih =>
    intro seen
    by_cases hx : seen.contains x
    · simp only [dedupFirstAux, if_pos hx]
      exact ih seen
    · simp only [dedupFirstAux, if_neg hx]
      refine List.nodup_cons.mpr ⟨?_, ih (x :: seen)⟩
      intro hmem
      exact ((dedupFirstAux_mem rest (x :: seen) x).mp hmem).2 (List.mem_cons_self x seen)

/-- C9: when the raw error text indicates a measurement mismatch, the
derived message is the mismatch header, the "Mismatched Enclave IDs"
section built from the ids scanned out of stderr+stdout — deduplicated,
keeping the order of first appearance (a sublist of the raw scan with the
same membership and no duplicates) — and the hint; otherwise a non-empty
raw error text is surfaced verbatim; otherwise the generic message. -/
theorem verification_error_formatting (r : VerifyResult) :
    ((strContains r.err "exit status 1" = true ∨ strContains r.err "command" = true) →
      formatVerificationError r =
        mismatchHeader ++
          idsSection (parseMismatchedIDs (r.stderr ++ "\n" ++ r.stdout)) ++ mismatchHint ∧
      (parseMismatchedIDs (r.stderr ++ "\n" ++ r.stdout)).Nodup ∧
      List.Sublist (parseMismatchedIDs (r.stderr ++ "\n" ++ r.stdout))
        (rawMismatchIDs (r.stderr ++ "\n" ++ r.stdout)) ∧
      (∀ i, i ∈ parseMismatchedIDs (r.stderr ++ "\n" ++ r.stdout) ↔
        i ∈ rawMismatchIDs (r.stderr ++ "\n" ++ r.stdout))) ∧
    (strContains r.err "exit status 1" = false → strContains r.err "command" = false →
      r.err ≠ "" → formatVerificationError r = r.err) ∧
    (strContains r.err "exit status 1" = false → strContains r.err "command" = false →
      r.err = "" →
      formatVerificationError r = "Verification failed: enclave measurements do not match") := by
  refine ⟨?_, ?_, ?_⟩
  · intro hcond
    have hor : (strContains r.err "exit status 1" || strContains r.err "command") = true := by
      rcases hcond with h | h <;> simp [h]
    refine ⟨by simp [formatVerificationError, hor], dedupFirstAux_nodup _ [], ?_, ?_⟩
    · exact dedupFirstAux_sublist _ []
    · intro i
      rw [parseMismatchedIDs, dedupFirstAux_mem]
      simp
  · intro h1 h2 hne
    have hor : (strContains r.err "exit status 1" || strContains r.err "command") = false := by
      simp [h1, h2]
    simp [formatVerificationError, hor, hne]
  · intro h1 h2 he
    have hor : (strContains r.err "exit status 1" || strContains r.err "command") = false := by
      simp [h1, h2]
    unfold formatVerificationError
    rw [hor]
    simp [he]

/-- Witness for C9: the spec example — error text "exit status 1" and a
stderr line mentioning a rofl1 identifier — produces the message with the
identifier listed under the Mismatched Enclave IDs heading. -/
theorem verification_error_formatting_witness :
    formatVerificationError ⟨false, "", "", "mismatch rofl1qqabcdefghijk found", "exit status 1"⟩ =
      mismatchHeader ++ idsSection ["rofl1qqabcdefghijk"] ++ mismatchHint ∧
    strContains
      (formatVerificationError ⟨false, "", "", "mismatch rofl1qqabcdefghijk found", "exit status 1"⟩)
      "Mismatched Enclave IDs:" = true := by
  have h := verification_error_formatting
    ⟨false, "", "", "mismatch rofl1qqabcdefghijk found", "exit status 1"⟩
  have h1 := (h.1 (Or.inl (by decide))).1
  have hids : parseMismatchedIDs ("mismatch rofl1qqabcdefghijk found" ++ "\n" ++ "") =
      ["rofl1qqabcdefghijk"] := by decide
  refine ⟨?_, by decide⟩
  rw [h1, hids]

/-! ## Task submission and per-deployment outcome recording
(worker, submitVerification lines 402-449, verifyDeployment lines
261-317, verifyApp lines 200-216) -/

/-- The observable outcome of the submission HTTP exchange: a transport
error, a 200 response whose body failed to decode, or a response with its
status and (for 200) the decoded task id. -/
inductive SubmitInput where
  | transportError (msg : String)
  | decodeError (msg : String)
  | response (status : Nat) (taskID : String)
deriving DecidableEq, Repr

/-- submitVerification: only an explicit 200 yields a task id; any other
status or transport/decode failure is an error describing the cause. -/
def submitVerification : SubmitInput → Except String String
  | .transportError m => .error ("failed to send request: " ++ m)
  | .decodeError m => .error ("failed to decode response: " ++ m)
  | .response st tid =>
    if st = 200 then .ok tid
    else .error ("unexpected status code: " ++ toString st)

/-- The error message attached to each failing poll outcome. -/
def pollErrorMsg : PollOutcome → Option String
  | .result _ => none
  | .timeoutErr => some "polling timeout"
  | .cancelErr => some "context canceled"
  | .notFoundErr => some "task not found or expired"
  | .unexpectedStatusErr c => some ("unexpected status code: " ++ toString c)
  | .checkErr m => some m

/-- One UpsertDeployment store call (appID fixed by context). -/
structure UpsertCall where
  name : String
  commitSHA : String
  status : String
  msg : String
deriving DecidableEq, Repr

def verifySuccessMsg : String :=
  "Built enclave identities MATCH on-chain measurements. Verification successful."

/-- verifyDeployment: a submission failure is recorded as a "failed"
upsert with a diagnostic message and returned as this deployment's error;
a polling failure likewise; a polled result is recorded as verified or
failed with the formatted diagnostics. -/
def verifyDeployment (name : String) (sub : SubmitInput) (poll : PollOutcome) :
    UpsertCall × Option String :=
  match submitVerification sub with
  | .error e =>
    (⟨name, "", "failed", "Failed to submit verification: " ++ e⟩,
     some ("failed to submit verification: " ++ e))
  | .ok _tid =>
    match poll with
    | .result r =>
      if r.verified then
        (⟨name, r.commitSHA, "verified", verifySuccessMsg⟩, none)
      else
        (⟨name, r.commitSHA, "failed", formatVerificationError r⟩, none)
    | other =>
      let m := (pollErrorMsg other).getD ""
      (⟨name, "", "failed", "Failed to poll results: " ++ m⟩,
       some ("failed to poll results: " ++ m))

/-- The body of verifyApp's deployment loop: record the upsert and keep
the last error, continuing regardless. -/
def verifyStep (acc : List UpsertCall × Option String)
    (d : String × SubmitInput × PollOutcome) : List UpsertCall × Option String :=
  let r := verifyDeployment d.1 d.2.1 d.2.2
  (acc.1 ++ [r.1], (r.2).elim acc.2 some)

/-- verifyApp over the declared deployments (each given with its
submission and poll environment). -/
def verifyApp (deps : List (String × SubmitInput × PollOutcome)) :
    List UpsertCall × Option String :=
  deps.foldl verifyStep ([], none)

lemma foldl_verifyStep_fst (deps : List (String × SubmitInput × PollOutcome)) :
    ∀ acc : List UpsertCall × Option String,
      (deps.foldl verifyStep acc).1 =
        acc.1 ++ deps.map (fun d => (verifyDeployment d.1 d.2.1 d.2.2).1) := by
  induction deps with
  | nil =>
    intro acc
    simp
  | cons d rest ih =>
    intro acc
    rw [List.foldl_cons, ih]
    simp [verifyStep]

/-- C7: submission succeeds exactly on an explicit 200 response; a
submission failure is recorded against the deployment as "failed" with a
diagnostic message and surfaces as that deployment's error; and the
deployment loop records exactly one upsert per declared deployment, in
order, continuing past failures instead of aborting. -/
theorem submission_failure_recorded (name : String) (sub : SubmitInput)
    (poll : PollOutcome) (deps : List (String × SubmitInput × PollOutcome)) :
    (∀ tid, submitVerification sub = .ok tid ↔ sub = .response 200 tid) ∧
    (∀ e, submitVerification sub = .error e →
      (verifyDeployment name sub poll).1 =
        ⟨name, "", "failed", "Failed to submit verification: " ++ e⟩ ∧
      (verifyDeployment name sub poll).2 =
        some ("failed to submit verification: " ++ e)) ∧
    (verifyApp deps).1 =
      deps.map (fun d => (verifyDeployment d.1 d.2.1 d.2.2).1) := by
  refine ⟨?_, ?_, ?_⟩
  · intro tid
    cases sub with
    | transportError m => simp [submitVerification]
    | decodeError m => simp [submitVerification]
    | response st tid2 =>
      by_cases hst : st = 200
      · subst hst
        simp [submitVerification]
      · simp [submitVerification, hst]
  · intro e he
    unfold verifyDeployment
    rw [he]
    exact ⟨rfl, rfl⟩
  · have h := foldl_verifyStep_fst deps ([], none)
    simpa [verifyApp] using h

/-- Witness for C7: a transport failure at submission is recorded as a
"failed" upsert with the diagnostic; a 200 response yields the task id. -/
theorem submission_failure_recorded_witness :
    (verifyDeployment "mainnet" (.transportError "connection refused") .timeoutErr).1 =
      ⟨"mainnet", "", "failed",
       "Failed to submit verification: failed to send request: connection refused"⟩ ∧
    submitVerification (.response 200 "t1") = .ok "t1" := by
  have h := submission_failure_recorded "mainnet" (.transportError "connection refused")
    .timeoutErr []
  have h2 := submission_failure_recorded "mainnet" (.response 200 "t1") .timeoutErr []
  refine ⟨?_, (h2.1 "t1").mpr rfl⟩
  have he := (h.2.1 ("failed to send request: " ++ "connection refused") rfl).1
  rw [he]
  decide

/-! ## Worker loop and configuration
(worker, Worker.Start lines 86-172; config, WorkerConfig lines 47-56 and
Validate lines 135-149) -/

structure WorkerConfig where
  enabled : Bool
  backendURL : String
  appInterval : Int
  pollInterval : Int
  pollTimeout : Int
deriving DecidableEq, Repr

/-- Config.Validate, worker part: when the worker is enabled, the backend
URL is non-empty and all three intervals are positive. -/
def validateWorker (c : WorkerConfig) : Bool :=
  !c.enabled ||
    (c.backendURL != "" && decide (0 < c.appInterval) &&
     decide (0 < c.pollInterval) && decide (0 < c.pollTimeout))

inductive WorkerEvent where
  | fetchApps
  | processApp (i : Nat)
  | sleepInterApp
  | sleepInterCycle
deriving DecidableEq, Repr

/-- The per-app loop of Start (lines 133-160): each app is processed in
listing order, with an inter-app sleep after each app except the last. -/
def appLoopEvents (n : Nat) : List WorkerEvent :=
  ((List.range n).map (fun i =>
    WorkerEvent.processApp i ::
      (if i < n - 1 then [WorkerEvent.sleepInterApp] else []))).flatten

/-- One cycle of Start after the cancellation check (lines 105-170):
fetch the app list; if empty sleep one inter-app interval and restart;
otherwise run the app loop and then sleep before the next cycle. -/
def cycleEvents (n : Nat) : List WorkerEvent :=
  WorkerEvent.fetchApps ::
    (if n = 0 then [WorkerEvent.sleepInterApp]
     else appLoopEvents n ++ [WorkerEvent.sleepInterCycle])

inductive RunResult where
  | retNil
  | retCtxErr
deriving DecidableEq, Repr

/-- The head of Start for one cycle: a disabled worker returns nil at
once with no events (lines 87-90); a cancelled context returns ctx.Err()
(lines 100-103); otherwise the cycle proceeds (result none). -/
def startCycle (cfg : WorkerConfig) (cancelled : Bool) (numApps : Nat) :
    Option RunResult × List WorkerEvent :=
  if !cfg.enabled then (some .retNil, [])
  else if cancelled then (some .retCtxErr, [])
  else (none, cycleEvents numApps)

/-- Both sleeps of Start use the configured AppInterval (in minutes;
modelled in seconds): appInterval := time.Duration(w.cfg.AppInterval) *
time.Minute, used at lines 115, 125, 156 and 168. -/
def sleepDuration (cfg : WorkerConfig) : WorkerEvent → Int
  | .sleepInterApp => cfg.appInterval * 60
  | .sleepInterCycle => cfg.appInterval * 60
  | _ => 0

lemma appLoopEvents_succ (n : Nat) :
    appLoopEvents (n + 1) =
      ((List.range n).map
        (fun i => [WorkerEvent.processApp i, WorkerEvent.sleepInterApp])).flatten ++
      [WorkerEvent.processApp n] := by
  unfold appLoopEvents
  rw [List.range_succ, List.map_append, List.flatten_append]
  congr 1
  · apply congrArg
    apply List.map_congr_left
    intro i hi
    have : i < n := List.mem_range.mp hi
    simp only [Nat.add_sub_cancel, if_pos this]
  · simp

/-- C6: with the worker enabled and the configuration valid, a cancelled
cycle returns the cancellation error; an empty app list produces one
fetch and one inter-app sleep before restarting; a non-empty list
produces the apps in listing order with exactly one inter-app sleep after
each except the last, followed by one inter-cycle sleep; and both sleep
intervals are the configuration-supplied positive duration. -/
theorem worker_cycle_structure (cfg : WorkerConfig) (n : Nat)
    (hen : cfg.enabled = true) (hval : validateWorker cfg = true) :
    startCycle cfg true n = (some .retCtxErr, []) ∧
    startCycle cfg false 0 = (none, [.fetchApps, .sleepInterApp]) ∧
    (1 ≤ n → startCycle cfg false n =
      (none, WorkerEvent.fetchApps ::
        (((List.range (n - 1)).map
            (fun i => [WorkerEvent.processApp i, WorkerEvent.sleepInterApp])).flatten ++
          [WorkerEvent.processApp (n - 1), WorkerEvent.sleepInterCycle]))) ∧
    0 < sleepDuration cfg .sleepInterApp ∧
    0 < sleepDuration cfg .sleepInterCycle ∧
    sleepDuration cfg .sleepInterApp = cfg.appInterval * 60 ∧
    sleepDuration cfg .sleepInterCycle = cfg.appInterval * 60 := by
  have hpos : 0 < cfg.appInterval := by
    unfold validateWorker at hval
    rw [hen] at hval
    simp only [Bool.not_true, Bool.false_or, Bool.and_eq_true, decide_eq_true_eq] at hval
    exact hval.1.1.2
  have hsleep : 0 < cfg.appInterval * 60 := by positivity
  refine ⟨by simp [startCycle, hen], by simp [startCycle, hen, cycleEvents], ?_,
    hsleep, hsleep, rfl, rfl⟩
  intro hn
  obtain ⟨m, rfl⟩ : ∃ m, n = m + 1 := ⟨n - 1, by omega⟩
  simp only [startCycle, hen, Bool.not_true, Bool.false_eq_true, if_false,
    if_neg (by simp : ¬(false = true)), cycleEvents,
    if_neg (Nat.succ_ne_zero m), appLoopEvents_succ, Nat.add_sub_cancel]
  simp

/-- Witness for C6: three apps yield the fetch, the interleaved
process/sleep pattern with no sleep after the last app, and the
inter-cycle sleep; the valid enabled config has positive sleeps. -/
theorem worker_cycle_structure_witness :
    startCycle ⟨true, "http://backend", 1, 5, 5⟩ false 3 =
      (none, [WorkerEvent.fetchApps, .processApp 0, .sleepInterApp, .processApp 1,
              .sleepInterApp, .processApp 2, .sleepInterCycle]) ∧
    startCycle ⟨true, "http://backend", 1, 5, 5⟩ true 3 = (some .retCtxErr, []) := by
  have h := worker_cycle_structure ⟨true, "http://backend", 1, 5, 5⟩ 3 rfl (by decide)
  refine ⟨?_, h.1⟩
  rw [h.2.2.1 (by decide)]
  decide

/-- C10: a disabled worker returns nil immediately: no fetch, no
verification, no sleep, for any cancellation state and app count. -/
theorem worker_disabled_returns_nil (cfg : WorkerConfig) (cancelled : Bool)
    (numApps : Nat) (hen : cfg.enabled = false) :
    startCycle cfg cancelled numApps = (some .retNil, []) := by
  simp [startCycle, hen]

/-- Witness for C10. -/
theorem worker_disabled_returns_nil_witness :
    startCycle ⟨false, "http://backend", 1, 5, 5⟩ false 3 = (some .retNil, []) :=
  worker_disabled_returns_nil ⟨false, "http://backend", 1, 5, 5⟩ false 3 rfl

end Rofl
